import Mathlib

/-!
# Verification of the RIG spatial-resolution and graph-integration core

Shallow embedding of the ingestion core of the RIG repository:

* `src/ingest/extract_elevations.py` — numeric coercion (`as_number`),
  attribute access (`first`), reference resolution (`IfcResolver.deref`),
  and placement-chain walking (`IfcResolver.z_from_local_placement`,
  `IfcResolver.z_from_object_placement`);
* `src/ingest/ifcjson_to_neo4j.py` / `src/ingest/ifcjson_edges.py` — the
  node/edge upsert Cypher issued against the graph store, modelled as
  explicit state transformers on a graph state;
* `src/ingest/link_in_space_from_ifc.py`, `link_in_space_from_two_ifc.py`,
  `link_in_space_by_placement.py`, `link_in_space_db_driven.py` — the
  containment / nearest-center zone assigners.

Numbers are modelled as exact rationals `ℚ` (the Python code uses IEEE
doubles; none of the verified properties depends on rounding behaviour).
Python `None` is `Value.vnull`; an absent value is `Option.none`.
-/

namespace RIG

/-- A JSON-like record value, as loaded from the ifcJSON input: the shape
of the Python values the ingest functions receive (`None`, numbers,
strings, booleans, lists, dicts).  Dicts are association lists; Python
dict keys are unique, and lookup takes the first binding. -/
inductive Value : Type where
  | vnull  : Value
  | vnum   : ℚ → Value
  | vstr   : String → Value
  | vbool  : Bool → Value
  | varr   : List Value → Value
  | vobj   : List (String × Value) → Value
deriving Repr

/-- Python truthiness of a value (`bool(x)`): `None`, `0`, `""`, `[]`,
`{}` and `False` are falsy. -/
def truthy : Value → Bool
  | .vnull => false
  | .vnum q => q ≠ 0
  | .vstr s => s ≠ ""
  | .vbool b => b
  | .varr xs => !xs.isEmpty
  | .vobj fs => !fs.isEmpty

/-- `d.get(k)` / `k in d` on a Python dict: first binding of the key, if
present (the present value may itself be `vnull`). -/
def dictGet (fs : List (String × Value)) (k : String) : Option Value :=
  match fs with
  | [] => none
  | (k', v) :: rest => if k' = k then some v else dictGet rest k

/-- Python `str(x)` restricted to the scalar shapes the code feeds it
(identifiers are strings or numbers in the data this repo ingests;
`str` of a composite is not modelled beyond totality). -/
def pyStr : Value → String
  | .vstr s => s
  | .vnum q => toString q
  | .vbool b => if b then "True" else "False"
  | .vnull => "None"
  | .varr _ => ""
  | .vobj _ => ""

/-! ## Structural size, used as fuel for the recursion of `as_number`

The Python `as_number` recurses into strict sub-values only, so its call
tree is bounded by the structural size of its argument; `vsize` computes
that bound and `goNum` consumes one unit of it per recursive step. -/

mutual
/-- Structural size of a `Value` (strictly larger than the size of any
sub-value). -/
def vsize : Value → Nat
  | .vnull => 1
  | .vnum _ => 1
  | .vstr _ => 1
  | .vbool _ => 1
  | .varr xs => 1 + lsize xs
  | .vobj fs => 1 + fsize fs
/-- Structural size of a list of values. -/
def lsize : List Value → Nat
  | [] => 1
  | x :: xs => 1 + vsize x + lsize xs
/-- Structural size of a field list. -/
def fsize : List (String × Value) → Nat
  | [] => 1
  | (_, v) :: fs => 1 + vsize v + fsize fs
end

/-! ## NumericCoercion: `as_number` (`src/ingest/extract_elevations.py:21-63`) -/

/-- Digits of a decimal string to a natural number. -/
def natOfDigits (cs : List Char) : Nat :=
  cs.foldl (fun a c => a * 10 + (c.toNat - 48)) 0

/-- Parse an unsigned decimal literal (`"12"`, `"12.5"`, `"12."`, `".5"`).
Exponent forms and `inf`/`nan` are not modelled: no claim depends on
numeric-string syntax, only on parse success being an `Option`. -/
def parseUnsigned (cs : List Char) : Option ℚ :=
  let intPart := cs.takeWhile (fun c => c ≠ '.')
  match cs.dropWhile (fun c => c ≠ '.') with
  | [] =>
    if !intPart.isEmpty && intPart.all Char.isDigit then
      some (natOfDigits intPart)
    else none
  | _ :: frac =>
    if intPart.all Char.isDigit && frac.all Char.isDigit &&
        (!intPart.isEmpty || !frac.isEmpty) then
      some ((natOfDigits intPart : ℚ) + (natOfDigits frac : ℚ) / (10 : ℚ) ^ frac.length)
    else none

/-- Python `s.strip()`: drop leading and trailing whitespace. -/
def pyStrip (s : String) : String :=
  ⟨((s.toList.dropWhile Char.isWhitespace).reverse.dropWhile
      Char.isWhitespace).reverse⟩

/-- Model of Python `float(s)` on a string: strips whitespace, parses a
signed decimal, fails (raises, caught by the caller) otherwise. -/
def parseDecimal (s : String) : Option ℚ :=
  match (pyStrip s).toList with
  | '-' :: cs => (parseUnsigned cs).map (fun q => -q)
  | '+' :: cs => parseUnsigned cs
  | cs => parseUnsigned cs

/-- `_as_float_primitive` (`extract_elevations.py:21-27`): numbers (and
Python `bool`, a subclass of `int`) convert; a non-blank string is parsed,
with a parse error caught and turned into `None`; anything else is
`None`. -/
def asFloatPrimitive : Value → Option ℚ
  | .vnum q => some q
  | .vbool b => some (if b then 1 else 0)
  | .vstr s => if pyStrip s = "" then none else parseDecimal s
  | _ => none

/-- Python substring test `pat in hay`. -/
def containsStr (hay pat : String) : Bool :=
  hay.toList.tails.any (fun t => pat.toList.isPrefixOf t)

/-- The wrapper keys tried by the dict branch of `as_number`. -/
def valueKeys : List String := ["value", "Value", "nominalValue", "NominalValue"]

/-- The vector-record keys that make `as_number` refuse a dict. -/
def xyzKeys : List String := ["x", "X", "y", "Y", "z", "Z"]

/-- Fueled body of `as_number` (`extract_elevations.py:29-63`), one unit
of fuel per recursive call; `asNumber` supplies `vsize` fuel, which is
strictly more than the recursion ever consumes. Branches, in source
order: `None`; primitives via `_as_float_primitive`; non-empty
list/tuple → first element that coerces; dict → wrapper keys, then the
x/y/z vector refusal, then any key containing `"IfcLengthMeasure"`
(returned directly, even when its value fails to coerce), then a sole
entry; anything else `None`. -/
def goNum : Nat → Value → Option ℚ
  | 0, _ => none
  | _ + 1, .vnull => none
  | _ + 1, .vnum q => some q
  | _ + 1, .vbool b => some (if b then 1 else 0)
  | _ + 1, .vstr s => asFloatPrimitive (.vstr s)
  | _ + 1, .varr [] => none
  | fuel + 1, .varr (x :: xs) =>
    match goNum fuel x with
    | some q => some q
    | none => goNum fuel (.varr xs)
  | fuel + 1, .vobj fs =>
    match valueKeys.findSome? (fun k => (dictGet fs k).bind (goNum fuel)) with
    | some q => some q
    | none =>
      if xyzKeys.any (fun k => (dictGet fs k).isSome) then none
      else
        match fs.find? (fun kv => containsStr kv.1 "IfcLengthMeasure") with
        | some kv => goNum fuel kv.2
        | none =>
          match fs with
          | [(_, v)] => goNum fuel v
          | _ => none

/-- `as_number` (`extract_elevations.py:29-63`): robust numeric
unwrapping; total, yielding `none` ("absent") on every unrecognized
shape. -/
def asNumber (v : Value) : Option ℚ := goNum (vsize v) v

/-! ## AttributeAccessor: `first` (`extract_elevations.py:13-19`) -/

/-- `first(d, *keys)`: each key at the top level (presence test, so a
present `None` is returned), then each key inside the `attributes`
sub-map when that is a dict.  A falsy `attributes` is replaced by `{}`
in the source (`d.get("attributes") or {}`) and yields nothing; a
truthy non-dict `attributes` (malformed input the source would trip
over) is modelled as yielding nothing as well. -/
def firstAttr (fs : List (String × Value)) (keys : List String) : Option Value :=
  match keys.findSome? (dictGet fs) with
  | some v => some v
  | none =>
    match dictGet fs "attributes" with
    | some (.vobj afs) => keys.findSome? (dictGet afs)
    | _ => none

/-! ## ReferenceResolver: `IfcResolver.deref` (`extract_elevations.py:69-79`) -/

/-- The reference-field casings recognized by `deref`: value of the first
present one among `ref`, `$ref`, `Ref`, `REF`. -/
def refTok (fs : List (String × Value)) : Option Value :=
  ["ref", "$ref", "Ref", "REF"].findSome? (dictGet fs)

/-- `IfcResolver.deref`: `None` stays absent; a dict with a reference
field is looked up in the instance table under `str` of that field's
value (dangling → absent); a dict without one is itself the record; a
bare string is looked up directly; any other shape is absent. -/
def deref (tbl : List (String × Value)) : Value → Option Value
  | .vnull => none
  | .vobj fs =>
    match refTok fs with
    | some r => dictGet tbl (pyStr r)
    | none => some (.vobj fs)
  | .vstr s => dictGet tbl s
  | _ => none

/-- `self.deref(first(...))` composition: Python `deref(None)` is `None`. -/
def derefOpt (tbl : List (String × Value)) (o : Option Value) : Option Value :=
  o.bind (deref tbl)

/-! ## PlacementResolver (`extract_elevations.py:81-133`) -/

/-- `IfcResolver.coords_from_point` (`extract_elevations.py:81-98`): the
`Coordinates` attribute as a list (each entry coerced, `None`s dropped,
empty → absent) or as an `x`/`y`/`z`-keyed dict (present keys in the
order x,X,y,Y,z,Z, coerced, `None`s dropped, empty → absent). -/
def coordsFromPoint (fs : List (String × Value)) : Option (List ℚ) :=
  match firstAttr fs ["Coordinates", "coordinates"] with
  | some (.varr xs) =>
    let vals := (xs.map asNumber).reduceOption
    if vals.isEmpty then none else some vals
  | some (.vobj pfs) =>
    let out := ((xyzKeys.filterMap (dictGet pfs)).map asNumber).reduceOption
    if out.isEmpty then none else some out
  | _ => none

/-- The identifier keys tried (through Python `or`, so a falsy value
falls through) when recording a placement in the visited set. -/
def idKeys : List String := ["id", "GlobalId", "globalId"]

/-- Python `d.get(k1) or d.get(k2) or ...`: the first present and truthy
value, if any. -/
def pyOrChain (fs : List (String × Value)) (keys : List String) : Option Value :=
  keys.findSome? (fun k =>
    match dictGet fs k with
    | some v => if truthy v then some v else none
    | none => none)

/-- One accumulation step of `z_from_local_placement`
(`extract_elevations.py:113-119`): dereference `RelativePlacement`, then
its `Location`; when the location yields a coordinate list of length at
least 3, add its third entry to the running total. -/
def zAccum (tbl : List (String × Value)) (fs : List (String × Value)) (z : ℚ) : ℚ :=
  match derefOpt tbl (firstAttr fs ["RelativePlacement", "relativePlacement"]) with
  | some (.vobj rfs) =>
    match derefOpt tbl (firstAttr rfs ["Location", "location"]) with
    | some (.vobj lfs) =>
      match coordsFromPoint lfs with
      | some cs => if 3 ≤ cs.length then z + cs.getD 2 0 else z
      | none => z
    | _ => z
  | _ => z

/-- The visited-set bookkeeping of one loop iteration
(`extract_elevations.py:106-111`): when the placement yields a truthy
identifier that is already in `seen`, the loop breaks (`none`);
otherwise the identifier (if any) is added. -/
def seenStep (fs : List (String × Value)) (seen : List String) :
    Option (List String) :=
  match pyOrChain fs idKeys with
  | some ov => if pyStr ov ∈ seen then none else some (pyStr ov :: seen)
  | none => some seen

/-- The `while` loop of `IfcResolver.z_from_local_placement`
(`extract_elevations.py:100-127`), state `(cur, seen, z_total, steps)`.
The loop guard is `isinstance(cur, dict) and steps < 64`; a recurring
identifier breaks before accumulating; a missing or undereferenceable
parent breaks after accumulating.  `fuel` only makes the recursion
structural; `zLoop_fuel_succ` below proves it never affects the result
once it is at least `64 - steps`, since `steps` grows by one per
iteration. -/
def zLoop (tbl : List (String × Value)) :
    Nat → Value → List String → ℚ → Nat → ℚ
  | 0, _, _, z, _ => z
  | fuel + 1, cur, seen, z, steps =>
    match cur with
    | .vobj fs =>
      if steps < 64 then
        match seenStep fs seen with
        | none => z
        | some seen2 =>
          match derefOpt tbl (firstAttr fs ["PlacementRelTo", "placementRelTo"]) with
          | none => zAccum tbl fs z
          | some p => zLoop tbl fuel p seen2 (zAccum tbl fs z) (steps + 1)
      else z
    | _ => z

/-- `IfcResolver.z_from_local_placement`: run the walk from the given
placement.  The Python function's final `return z_total if steps >= 0
else None` always takes the first branch, so the result is a plain
number. -/
def zFromLocalPlacement (tbl : List (String × Value)) (lp : Value) : ℚ :=
  zLoop tbl 64 lp [] 0 0

/-- `IfcResolver.z_from_object_placement` (`extract_elevations.py:129-133`):
dereference the record's `ObjectPlacement`; absent or not a dict →
`None` (unresolved), else walk the chain. -/
def zFromObjectPlacement (tbl : List (String × Value))
    (fs : List (String × Value)) : Option ℚ :=
  match derefOpt tbl (firstAttr fs ["ObjectPlacement", "objectPlacement"]) with
  | some (.vobj ofs) => some (zFromLocalPlacement tbl (.vobj ofs))
  | _ => none

/-- `isinstance(op, dict)` on a dereferenced placement token — the test
deciding between walking the chain and the unresolved marker
(`extract_elevations.py:131`). -/
def isDict : Option Value → Bool
  | some (.vobj _) => true
  | _ => false

/-! ## GraphMergeEngine (`src/ingest/ifcjson_to_neo4j.py:193-231`,
`src/ingest/ifcjson_edges.py:39-40`)

The persistent store is modelled as an explicit graph state.  Node
properties are a map `String → Option PV` (Cypher properties are never
null: setting a property to null removes it, which is what `none`
records).  Edges are a multiset, as a list: Cypher `MERGE` creates the
relationship only when the `(source, target, type)` pattern has no
match, so duplication is observable in the model if it ever occurred. -/

/-- A scalar graph-property value. -/
inductive PV : Type where
  | pstr : String → PV
  | pnum : ℚ → PV
  | pbool : Bool → PV
deriving DecidableEq, Repr

/-- A persisted node: labels and a property map. -/
@[ext]
structure GNode where
  labels : List String
  props : String → Option PV

/-- The persistent graph: nodes keyed by `globalId` (the `MERGE` key,
unique), and the relationship list. -/
@[ext]
structure Graph where
  nodes : String → Option GNode
  edges : List (String × String × String)

/-- Cypher `SET n.k = v` (`v` null removes the property). -/
def setProp (p : String → Option PV) (k : String) (v : Option PV) :
    String → Option PV :=
  fun k2 => if k2 = k then v else p k2

/-- Cypher `coalesce(a, b)`. -/
def coalescePV (a b : Option PV) : Option PV :=
  match a with
  | some x => some x
  | none => b

/-- Cypher `SET n += m`: each binding in order, null values removing. -/
def plusProps (p : String → Option PV) (kvs : List (String × Option PV)) :
    String → Option PV :=
  kvs.foldl (fun acc kv => setProp acc kv.1 kv.2) p

/-- `apoc.create.addLabels` for one label: appended when not present. -/
def addLabel (ls : List String) (l : String) : List String :=
  if l ∈ ls then ls else ls ++ [l]

/-- `apoc.create.addLabels`: add each given label. -/
def addLabels (ls : List String) (new : List String) : List String :=
  new.foldl addLabel ls

/-- The value of the last binding of a key in a `SET n += m` map, if
any (later bindings overwrite earlier ones; used to state what the
props-flat overwrite leaves behind). -/
def lastVal : List (String × Option PV) → String → Option (Option PV)
  | [], _ => none
  | kv :: rest, k =>
    match lastVal rest k with
    | some v => some v
    | none => if kv.1 = k then some kv.2 else none

/-- The `ON CREATE SET` list of `ifcjson_to_neo4j.py` Pass 1 (lines
196-202), applied to the fresh (empty) property map: `name`, `type`,
`source`, `psets_json`, `attrs_json` set outright, `flowDirection` set
to `coalesce($flow_dir, n.flowDirection)` — `n.flowDirection` being null
at creation, that is the parameter itself. -/
def onCreateChain (nm ty src psets attrs : String) (flow : Option PV) :
    String → Option PV :=
  setProp
    (setProp
      (setProp
        (setProp
          (setProp
            (setProp (fun _ => none) "name" (some (.pstr nm)))
            "type" (some (.pstr ty)))
          "source" (some (.pstr src)))
        "psets_json" (some (.pstr psets)))
      "attrs_json" (some (.pstr attrs)))
    "flowDirection" flow

/-- The `ON MATCH SET` list of `ifcjson_to_neo4j.py` Pass 1 (lines
203-209), applied to the matched node's property map `p`: `name`,
`source`, `psets_json`, `attrs_json`, `flowDirection` are filled through
`coalesce(n.key, $param)`, while `type` is overwritten with `$ifc_type`
unconditionally. -/
def onMatchChain (p : String → Option PV) (nm ty src psets attrs : String)
    (flow : Option PV) : String → Option PV :=
  setProp
    (setProp
      (setProp
        (setProp
          (setProp
            (setProp p "name" (coalescePV (p "name") (some (.pstr nm))))
            "type" (some (.pstr ty)))
          "source" (coalescePV (p "source") (some (.pstr src))))
        "psets_json" (coalescePV (p "psets_json") (some (.pstr psets))))
      "attrs_json" (coalescePV (p "attrs_json") (some (.pstr attrs))))
    "flowDirection" (coalescePV (p "flowDirection") flow)

/-- The per-record node upsert of `ifcjson_to_neo4j.py` Pass 1
(lines 193-231): `MERGE (n:IfcEntity {globalId:$id})` with
`ON CREATE` setting every field, `ON MATCH` filling `name`, `source`,
`psets_json`, `attrs_json`, `flowDirection` through `coalesce` while
unconditionally refreshing `type`; in both branches `SET n += $props_flat`
then overwrites the selected flattened pset fields, and
`apoc.create.addLabels` adds the type labels. -/
def upsertNode (g : Graph) (id nm ty src psets attrs : String)
    (flow : Option PV) (propsFlat : List (String × Option PV))
    (labels : List String) : Graph :=
  match g.nodes id with
  | none =>
    { g with nodes := fun i =>
        if i = id then
          some ⟨addLabels ["IfcEntity"] labels,
                plusProps (onCreateChain nm ty src psets attrs flow) propsFlat⟩
        else g.nodes i }
  | some n =>
    { g with nodes := fun i =>
        if i = id then
          some ⟨addLabels n.labels labels,
                plusProps (onMatchChain n.props nm ty src psets attrs flow) propsFlat⟩
        else g.nodes i }

/-- `merge_rel` (`ifcjson_edges.py:39-40`):
`MATCH (a {globalId:$a}),(b {globalId:$b}) MERGE (a)-[:T]->(b)`.
When either endpoint is missing the `MATCH` produces no row and nothing
happens; otherwise the relationship is created only if the triple is not
already present. -/
def upsertEdge (g : Graph) (a b t : String) : Graph :=
  match g.nodes a, g.nodes b with
  | some _, some _ =>
    if (a, b, t) ∈ g.edges then g else { g with edges := g.edges ++ [(a, b, t)] }
  | _, _ => g

/-- Read a node property ("getProperty" capability). -/
def getProp (g : Graph) (id k : String) : Option PV :=
  match g.nodes id with
  | some n => n.props k
  | none => none

/-! ## ContainmentAssigner (`src/ingest/link_in_space_from_ifc.py`,
`link_in_space_from_two_ifc.py`, `link_in_space_by_placement.py`,
`link_in_space_db_driven.py`) -/

/-- An axis-aligned space bounding box (`aabb_of_shape`). -/
structure AABB where
  x0 : ℚ
  y0 : ℚ
  z0 : ℚ
  x1 : ℚ
  y1 : ℚ
  z1 : ℚ
deriving DecidableEq, Repr

/-- `center(aabb)` (`link_in_space_from_ifc.py:35-37`). -/
def centerOf (b : AABB) : ℚ × ℚ × ℚ :=
  ((b.x0 + b.x1) / 2, (b.y0 + b.y1) / 2, (b.z0 + b.z1) / 2)

/-- Squared Euclidean distance, as computed in the nearest-center
fallback loops. -/
def dist2 (c p : ℚ × ℚ × ℚ) : ℚ :=
  (c.1 - p.1) ^ 2 + (c.2.1 - p.2.1) ^ 2 + (c.2.2 - p.2.2) ^ 2

/-- `contains(aabb, p, tol_xy, tol_z)` (`link_in_space_from_ifc.py:39-44`):
inclusive box test with a lateral tolerance on X/Y and a vertical
tolerance on Z. -/
def containsAABB (b : AABB) (p : ℚ × ℚ × ℚ) (tolXY tolZ : ℚ) : Bool :=
  decide (b.x0 - tolXY ≤ p.1 ∧ p.1 ≤ b.x1 + tolXY ∧
          b.y0 - tolXY ≤ p.2.1 ∧ p.2.1 ≤ b.y1 + tolXY ∧
          b.z0 - tolZ ≤ p.2.2 ∧ p.2.2 ≤ b.z1 + tolZ)

/-- The Python sentinel `best_d2 = 1e99` initializing the fallback
minimization. -/
def sentinel : ℚ := 10 ^ 99

/-- One step of the nearest-center fallback loop
(`link_in_space_from_ifc.py:131-135`): keep the zone whose center is
strictly closer than the best so far. -/
def ncStep (p : ℚ × ℚ × ℚ) (acc : Option String × ℚ) (z : String × AABB) :
    Option String × ℚ :=
  if dist2 (centerOf z.2) p < acc.2 then (some z.1, dist2 (centerOf z.2) p) else acc

/-- The nearest-center fallback loop (`link_in_space_from_ifc.py:129-136`):
minimize squared center distance starting from the `1e99` sentinel; no
gates. -/
def nearestCenter (zones : List (String × AABB)) (p : ℚ × ℚ × ℚ) :
    Option String :=
  (zones.foldl (ncStep p) ((none : Option String), sentinel)).1

/-- The geometric tiers of `link_in_space_from_ifc.py:119-141` (also
`link_in_space_from_two_ifc.py:99-120`): first containing space in
iteration order (default tolerances 0.10 lateral, 1.0 vertical); when
there is none — Python truthiness, so also on an empty-string hit — the
ungated nearest-center fallback; the element is linked only when the
final `hit` is truthy. -/
def assignGeom (zones : List (String × AABB)) (p : ℚ × ℚ × ℚ) :
    Option String :=
  let hit0 := (zones.find? (fun z => containsAABB z.2 p (1 / 10) 1)).map Prod.fst
  let hit1 :=
    match hit0 with
    | some g => if g = "" then nearestCenter zones p else some g
    | none => nearestCenter zones p
  match hit1 with
  | some g => if g = "" then none else some g
  | none => none

/-- One iteration of `nearest_space` (`link_in_space_by_placement.py:86-95`,
inlined likewise in `link_in_space_db_driven.py:79-88`): skip a space
whose vertical offset exceeds `z_tol`; skip — when `xy_max > 0` — a
space beyond the lateral cap; otherwise keep it if its XY squared
distance is strictly below the best so far. -/
def nsStep (zTol xyMax : ℚ) (p : ℚ × ℚ × ℚ) (acc : Option String × ℚ)
    (s : String × (ℚ × ℚ × ℚ)) : Option String × ℚ :=
  if zTol < |p.2.2 - s.2.2.2| then acc
  else if 0 < xyMax ∧ xyMax ^ 2 < (p.1 - s.2.1) ^ 2 + (p.2.1 - s.2.2.1) ^ 2 then acc
  else if (p.1 - s.2.1) ^ 2 + (p.2.1 - s.2.2.1) ^ 2 < acc.2 then
    (some s.1, (p.1 - s.2.1) ^ 2 + (p.2.1 - s.2.2.1) ^ 2)
  else acc

/-- `nearest_space` (`link_in_space_by_placement.py:83-96`), the fold of
`nsStep` over the space table from the `1e99` sentinel. -/
def nearestSpace (spaces : List (String × (ℚ × ℚ × ℚ))) (zTol xyMax : ℚ)
    (p : ℚ × ℚ × ℚ) : Option String :=
  (spaces.foldl (nsStep zTol xyMax p) ((none : Option String), sentinel)).1

/-! ## Concrete ingestion fixtures used by the witnesses and
counterexamples below -/

/-- A local placement with relative Z offset 3 and no parent (chain
root); it carries an (ignored) direction field. -/
def chain3 : Value := .vobj [("id", .vstr "P3"),
  ("RelativePlacement", .vobj [
    ("Location", .vobj [("Coordinates", .varr [.vnum 0, .vnum 0, .vnum 3])]),
    ("RefDirection", .varr [.vnum 1, .vnum 0, .vnum 0])])]

/-- A local placement with relative Z offset 2, parent `P3`, carrying an
(ignored) direction field. -/
def chain2 : Value := .vobj [("id", .vstr "P2"),
  ("RelativePlacement", .vobj [
    ("Location", .vobj [("Coordinates", .varr [.vnum 0, .vnum 0, .vnum 2])]),
    ("RefDirection", .varr [.vnum 0, .vnum 1, .vnum 0])]),
  ("PlacementRelTo", .vobj [("ref", .vstr "P3")])]

/-- A local placement with relative Z offset 1 and parent `P2`. -/
def chain1 : Value := .vobj [("id", .vstr "P1"),
  ("RelativePlacement", .vobj [
    ("Location", .vobj [("Coordinates", .varr [.vnum 0, .vnum 0, .vnum 1])])]),
  ("PlacementRelTo", .vobj [("ref", .vstr "P2")])]

/-- The three-placement chain table (offsets 1, 2, 3). -/
def chainTable : List (String × Value) := [("P1", chain1), ("P2", chain2), ("P3", chain3)]

/-- Cyclic placement `A` (offset 1, parent `B`). -/
def placeA : Value := .vobj [("id", .vstr "A"),
  ("RelativePlacement", .vobj [
    ("Location", .vobj [("Coordinates", .varr [.vnum 0, .vnum 0, .vnum 1])])]),
  ("PlacementRelTo", .vobj [("ref", .vstr "B")])]

/-- Cyclic placement `B` (offset 2, parent `A`): together with `placeA`
a reference cycle A → B → A. -/
def placeB : Value := .vobj [("id", .vstr "B"),
  ("RelativePlacement", .vobj [
    ("Location", .vobj [("Coordinates", .varr [.vnum 0, .vnum 0, .vnum 2])])]),
  ("PlacementRelTo", .vobj [("ref", .vstr "A")])]

/-- The cyclic table A → B → A. -/
def cycTable : List (String × Value) := [("A", placeA), ("B", placeB)]

/-- A record whose placement chain exists but whose coordinates are
non-numeric strings. -/
def nonNumericObj : List (String × Value) :=
  [("ObjectPlacement", .vobj [("RelativePlacement", .vobj [
    ("Location", .vobj [("Coordinates",
      .varr [.vstr "abc", .vstr "def", .vstr "ghi"])])])])]

/-- A one-record table for `deref` tests: identifier `X`. -/
def refTable : List (String × Value) := [("X", .vobj [("marker", .vnum 1)])]

/-- The empty graph. -/
def emptyGraph : Graph := ⟨fun _ => none, []⟩

/-- A graph holding bare nodes `A` and `B` (as after the node pass, before
any edge pass). -/
def twoNodeGraph : Graph :=
  ⟨fun i => if i = "A" ∨ i = "B" then some ⟨["IfcEntity"], fun _ => none⟩ else none, []⟩

/-- One upsert of node `N` carrying the flattened pset field
`InstallYear = 2015`. -/
def gInstall2015 : Graph :=
  upsertNode emptyGraph "N" "nm" "T" "src" "ps" "at" none
    [("InstallYear", some (.pnum 2015))] ["T"]

/-- A second upsert of the same node with `InstallYear = 2016`. -/
def gInstall2016 : Graph :=
  upsertNode gInstall2015 "N" "nm" "T" "src" "ps" "at" none
    [("InstallYear", some (.pnum 2016))] ["T"]

/-- The unit box `[0,1]³` as a space bounding volume. -/
def unitBox : AABB := ⟨0, 0, 0, 1, 1, 1⟩

/-! ## Helper lemmas about labels and property maps -/

theorem mem_addLabel {x l : String} {ls : List String} :
    x ∈ addLabel ls l ↔ x ∈ ls ∨ x = l := by
  unfold addLabel
  by_cases h : l ∈ ls
  · simp only [if_pos h]
    constructor
    · exact Or.inl
    · rintro (hx | rfl)
      · exact hx
      · exact h
  · simp [if_neg h]

theorem addLabel_of_mem {l : String} {ls : List String} (h : l ∈ ls) :
    addLabel ls l = ls := by
  simp [addLabel, if_pos h]

theorem mem_addLabels {x : String} {new ls : List String} :
    x ∈ addLabels ls new ↔ x ∈ ls ∨ x ∈ new := by
  induction new generalizing ls with
  | nil => simp [addLabels]
  | cons a rest ih =>
    show x ∈ addLabels (addLabel ls a) rest ↔ _
    rw [ih, mem_addLabel]
    simp only [List.mem_cons]
    tauto

theorem addLabels_of_subset {new ls : List String}
    (h : ∀ x ∈ new, x ∈ ls) : addLabels ls new = ls := by
  induction new generalizing ls with
  | nil => rfl
  | cons a rest ih =>
    show addLabels (addLabel ls a) rest = ls
    rw [addLabel_of_mem (h a (List.mem_cons_self a rest))]
    exact ih fun x hx => h x (List.mem_cons_of_mem a hx)

theorem addLabels_addLabels (ls new : List String) :
    addLabels (addLabels ls new) new = addLabels ls new :=
  addLabels_of_subset fun _ hx => mem_addLabels.2 (Or.inr hx)

theorem setProp_self (p : String → Option PV) (k : String) (v : Option PV) :
    setProp p k v k = v := by
  simp [setProp]

theorem setProp_ne (p : String → Option PV) {k k2 : String} (v : Option PV)
    (h : k2 ≠ k) : setProp p k v k2 = p k2 := by
  simp [setProp, if_neg h]

theorem coalescePV_coalescePV (a b : Option PV) :
    coalescePV (coalescePV a b) b = coalescePV a b := by
  cases a <;> cases b <;> rfl

theorem coalescePV_some_ne_none (a : Option PV) (v : PV) :
    coalescePV a (some v) ≠ none := by
  cases a <;> simp [coalescePV]

theorem plusProps_eq_of {kvs : List (String × Option PV)}
    {p q : String → Option PV} {k : String}
    (h : k ∉ kvs.map Prod.fst → p k = q k) :
    plusProps p kvs k = plusProps q kvs k := by
  induction kvs generalizing p q with
  | nil => exact h (by simp)
  | cons kv rest ih =>
    show plusProps (setProp p kv.1 kv.2) rest k = plusProps (setProp q kv.1 kv.2) rest k
    refine ih fun hrest => ?_
    by_cases hk : k = kv.1
    · subst hk
      rw [setProp_self, setProp_self]
    · rw [setProp_ne _ _ hk, setProp_ne _ _ hk]
      refine h ?_
      simp only [List.map_cons, List.mem_cons]
      rintro (h1 | h2)
      · exact hk h1
      · exact hrest h2

theorem plusProps_not_mem {kvs : List (String × Option PV)}
    {p : String → Option PV} {k : String}
    (h : k ∉ kvs.map Prod.fst) : plusProps p kvs k = p k := by
  induction kvs generalizing p with
  | nil => rfl
  | cons kv rest ih =>
    show plusProps (setProp p kv.1 kv.2) rest k = p k
    simp only [List.map_cons, List.mem_cons] at h
    push_neg at h
    rw [ih h.2, setProp_ne _ _ h.1]

theorem plusProps_eq_lastVal (kvs : List (String × Option PV))
    (p : String → Option PV) (k : String) :
    plusProps p kvs k = (lastVal kvs k).getD (p k) := by
  induction kvs generalizing p with
  | nil => rfl
  | cons kv rest ih =>
    show plusProps (setProp p kv.1 kv.2) rest k = (lastVal (kv :: rest) k).getD (p k)
    rw [ih]
    cases h : lastVal rest k with
    | some v => simp [lastVal, h]
    | none =>
      by_cases hk : kv.1 = k
      · subst hk
        simp [lastVal, h, setProp_self]
      · simp [lastVal, h, if_neg hk, setProp_ne p _ (fun he => hk he.symm)]

/-! ## Pointwise evaluation of the `ON MATCH` / `ON CREATE` set lists -/

theorem onMatchChain_name (p : String → Option PV) (nm ty src ps ats : String)
    (fl : Option PV) :
    onMatchChain p nm ty src ps ats fl "name" = coalescePV (p "name") (some (.pstr nm)) := by
  simp [onMatchChain, setProp]

theorem onMatchChain_type (p : String → Option PV) (nm ty src ps ats : String)
    (fl : Option PV) :
    onMatchChain p nm ty src ps ats fl "type" = some (.pstr ty) := by
  simp [onMatchChain, setProp]

theorem onMatchChain_source (p : String → Option PV) (nm ty src ps ats : String)
    (fl : Option PV) :
    onMatchChain p nm ty src ps ats fl "source" = coalescePV (p "source") (some (.pstr src)) := by
  simp [onMatchChain, setProp]

theorem onMatchChain_psets (p : String → Option PV) (nm ty src ps ats : String)
    (fl : Option PV) :
    onMatchChain p nm ty src ps ats fl "psets_json" =
      coalescePV (p "psets_json") (some (.pstr ps)) := by
  simp [onMatchChain, setProp]

theorem onMatchChain_attrs (p : String → Option PV) (nm ty src ps ats : String)
    (fl : Option PV) :
    onMatchChain p nm ty src ps ats fl "attrs_json" =
      coalescePV (p "attrs_json") (some (.pstr ats)) := by
  simp [onMatchChain, setProp]

theorem onMatchChain_flow (p : String → Option PV) (nm ty src ps ats : String)
    (fl : Option PV) :
    onMatchChain p nm ty src ps ats fl "flowDirection" =
      coalescePV (p "flowDirection") fl := by
  simp [onMatchChain, setProp]

theorem onMatchChain_other (p : String → Option PV) (nm ty src ps ats : String)
    (fl : Option PV) {k : String} (e1 : k ≠ "name") (e2 : k ≠ "type")
    (e3 : k ≠ "source") (e4 : k ≠ "psets_json") (e5 : k ≠ "attrs_json")
    (e6 : k ≠ "flowDirection") :
    onMatchChain p nm ty src ps ats fl k = p k := by
  simp [onMatchChain, setProp, e1, e2, e3, e4, e5, e6]

/-- Applying the `ON MATCH` set list to a property map that already went
through a first pass (whose pre-`+=` map was `S1`) changes nothing
outside the keys rebound by `SET n += $props_flat`. -/
theorem onMatchChain_absorb (nm ty src ps ats : String) (fl : Option PV)
    {S1 : String → Option PV} {kvs : List (String × Option PV)}
    (h1 : ∃ r, S1 "name" = coalescePV r (some (.pstr nm)))
    (h2 : S1 "type" = some (.pstr ty))
    (h3 : ∃ r, S1 "source" = coalescePV r (some (.pstr src)))
    (h4 : ∃ r, S1 "psets_json" = coalescePV r (some (.pstr ps)))
    (h5 : ∃ r, S1 "attrs_json" = coalescePV r (some (.pstr ats)))
    (h6 : ∃ r, S1 "flowDirection" = coalescePV r fl)
    {k : String} (hk : k ∉ kvs.map Prod.fst) :
    onMatchChain (plusProps S1 kvs) nm ty src ps ats fl k = S1 k := by
  by_cases e1 : k = "name"
  · subst e1
    obtain ⟨r, hr⟩ := h1
    rw [onMatchChain_name, plusProps_not_mem hk, hr, coalescePV_coalescePV]
  by_cases e2 : k = "type"
  · subst e2
    rw [onMatchChain_type, h2]
  by_cases e3 : k = "source"
  · subst e3
    obtain ⟨r, hr⟩ := h3
    rw [onMatchChain_source, plusProps_not_mem hk, hr, coalescePV_coalescePV]
  by_cases e4 : k = "psets_json"
  · subst e4
    obtain ⟨r, hr⟩ := h4
    rw [onMatchChain_psets, plusProps_not_mem hk, hr, coalescePV_coalescePV]
  by_cases e5 : k = "attrs_json"
  · subst e5
    obtain ⟨r, hr⟩ := h5
    rw [onMatchChain_attrs, plusProps_not_mem hk, hr, coalescePV_coalescePV]
  by_cases e6 : k = "flowDirection"
  · subst e6
    obtain ⟨r, hr⟩ := h6
    rw [onMatchChain_flow, plusProps_not_mem hk, hr, coalescePV_coalescePV]
  rw [onMatchChain_other _ _ _ _ _ _ _ e1 e2 e3 e4 e5 e6, plusProps_not_mem hk]

/-- A second upsert against a node produced by a first upsert with the
same arguments leaves the graph unchanged. -/
theorem upsertNode_stable (L1 : List String) (S1 : String → Option PV)
    {g1 : Graph} {id : String} (nm ty src ps ats : String) (fl : Option PV)
    (kvs : List (String × Option PV)) (ls : List String)
    (hid : g1.nodes id = some ⟨addLabels L1 ls, plusProps S1 kvs⟩)
    (h1 : ∃ r, S1 "name" = coalescePV r (some (.pstr nm)))
    (h2 : S1 "type" = some (.pstr ty))
    (h3 : ∃ r, S1 "source" = coalescePV r (some (.pstr src)))
    (h4 : ∃ r, S1 "psets_json" = coalescePV r (some (.pstr ps)))
    (h5 : ∃ r, S1 "attrs_json" = coalescePV r (some (.pstr ats)))
    (h6 : ∃ r, S1 "flowDirection" = coalescePV r fl) :
    upsertNode g1 id nm ty src ps ats fl kvs ls = g1 := by
  refine Graph.ext ?_ ?_
  · funext i
    show (upsertNode g1 id nm ty src ps ats fl kvs ls).nodes i = g1.nodes i
    by_cases hi : i = id
    · subst hi
      simp only [upsertNode, hid]
      rw [if_pos trivial]
      congr 1
      refine GNode.ext ?_ ?_
      · exact addLabels_addLabels L1 ls
      · funext k
        exact plusProps_eq_of fun hk =>
          onMatchChain_absorb nm ty src ps ats fl h1 h2 h3 h4 h5 h6 hk
    · simp only [upsertNode, hid]
      rw [if_neg hi]
  · show (upsertNode g1 id nm ty src ps ats fl kvs ls).edges = g1.edges
    simp only [upsertNode, hid]

/-- `upsertNode` is idempotent: the second identical upsert is a no-op. -/
theorem upsertNode_idem (g : Graph) (id nm ty src ps ats : String)
    (fl : Option PV) (kvs : List (String × Option PV)) (ls : List String) :
    upsertNode (upsertNode g id nm ty src ps ats fl kvs ls) id nm ty src ps ats fl kvs ls =
      upsertNode g id nm ty src ps ats fl kvs ls := by
  cases hg : g.nodes id with
  | none =>
    refine upsertNode_stable ["IfcEntity"] (onCreateChain nm ty src ps ats fl)
      nm ty src ps ats fl kvs ls ?_ ?_ ?_ ?_ ?_ ?_ ?_
    · show (upsertNode g id nm ty src ps ats fl kvs ls).nodes id = _
      simp [upsertNode, hg]
    · exact ⟨none, by simp [onCreateChain, setProp, coalescePV]⟩
    · simp [onCreateChain, setProp]
    · exact ⟨none, by simp [onCreateChain, setProp, coalescePV]⟩
    · exact ⟨none, by simp [onCreateChain, setProp, coalescePV]⟩
    · exact ⟨none, by simp [onCreateChain, setProp, coalescePV]⟩
    · exact ⟨none, by simp [onCreateChain, setProp, coalescePV]⟩
  | some n =>
    refine upsertNode_stable n.labels (onMatchChain n.props nm ty src ps ats fl)
      nm ty src ps ats fl kvs ls ?_ ?_ ?_ ?_ ?_ ?_ ?_
    · show (upsertNode g id nm ty src ps ats fl kvs ls).nodes id = _
      simp [upsertNode, hg]
    · exact ⟨n.props "name", onMatchChain_name _ _ _ _ _ _ _⟩
    · exact onMatchChain_type _ _ _ _ _ _ _
    · exact ⟨n.props "source", onMatchChain_source _ _ _ _ _ _ _⟩
    · exact ⟨n.props "psets_json", onMatchChain_psets _ _ _ _ _ _ _⟩
    · exact ⟨n.props "attrs_json", onMatchChain_attrs _ _ _ _ _ _ _⟩
    · exact ⟨n.props "flowDirection", onMatchChain_flow _ _ _ _ _ _ _⟩

/-- `upsertEdge` is idempotent. -/
theorem upsertEdge_idem (g : Graph) (a b t : String) :
    upsertEdge (upsertEdge g a b t) a b t = upsertEdge g a b t := by
  unfold upsertEdge
  cases ha : g.nodes a with
  | none => simp [ha]
  | some na =>
    cases hb : g.nodes b with
    | none => simp [ha, hb]
    | some nb =>
      by_cases he : (a, b, t) ∈ g.edges
      · simp [ha, hb, if_pos he]
      · simp only [ha, hb, if_neg he]
        simp [ha, hb]

/-! ## Helper lemmas about the placement-chain walk -/

/-- Spending one more unit of fuel changes nothing once the fuel covers
the remaining `64 - steps` loop iterations: the `steps < 64` guard stops
the walk first. -/
theorem zLoop_fuel_succ (tbl : List (String × Value)) :
    ∀ (f : Nat) (cur : Value) (seen : List String) (z : ℚ) (steps : Nat),
      64 ≤ steps + f →
      zLoop tbl (f + 1) cur seen z steps = zLoop tbl f cur seen z steps := by
  intro f
  induction f with
  | zero =>
    intro cur seen z steps h
    have hs : ¬ steps < 64 := by omega
    cases cur <;> simp [zLoop, hs]
  | succ f ih =>
    intro cur seen z steps h
    cases cur with
    | vobj fs =>
      by_cases hs : steps < 64
      · simp only [zLoop, if_pos hs]
        cases seenStep fs seen with
        | none => rfl
        | some seen2 =>
          cases derefOpt tbl (firstAttr fs ["PlacementRelTo", "placementRelTo"]) with
          | none => rfl
          | some p => exact ih p seen2 (zAccum tbl fs z) (steps + 1) (by omega)
      · simp [zLoop, hs]
    | vnull => rfl
    | vnum q => rfl
    | vstr s => rfl
    | vbool b => rfl
    | varr xs => rfl

/-- Any fuel of at least 64 gives the same walk as the source's
64-bounded loop. -/
theorem zLoop_fuel_ge (tbl : List (String × Value)) (f : Nat) (lp : Value)
    (hf : 64 ≤ f) :
    zLoop tbl f lp [] 0 0 = zFromLocalPlacement tbl lp := by
  unfold zFromLocalPlacement
  induction f with
  | zero => omega
  | succ f ih =>
    rcases Nat.lt_or_ge 64 (f + 1) with h | h
    · rw [zLoop_fuel_succ tbl f lp [] 0 0 (by omega), ih (by omega)]
    · have : f + 1 = 64 := by omega
      rw [this]

/-- A placement whose (truthy) identifier is already in the visited set
breaks the walk at once, returning the accumulation unchanged. -/
theorem zLoop_visited (tbl : List (String × Value)) (fuel : Nat)
    (fs : List (String × Value)) (seen : List String) (z : ℚ) (steps : Nat)
    (ov : Value) (hov : pyOrChain fs idKeys = some ov)
    (hseen : pyStr ov ∈ seen) :
    zLoop tbl fuel (.vobj fs) seen z steps = z := by
  cases fuel with
  | zero => rfl
  | succ f =>
    by_cases hs : steps < 64
    · simp [zLoop, hs, seenStep, hov, hseen]
    · simp [zLoop, hs]

/-! ## Helper lemmas about `as_number` -/

/-- The dict branch of `as_number` on a mapping with none of the wrapper
keys and at least one x/y/z-like key refuses to produce a scalar. -/
theorem goNum_vobj_xyz (f : Nat) (fs : List (String × Value))
    (hval : ∀ k ∈ valueKeys, dictGet fs k = none)
    (hxyz : ∃ k ∈ xyzKeys, (dictGet fs k).isSome) :
    goNum (f + 1) (.vobj fs) = none := by
  have h1 := hval "value" (by simp [valueKeys])
  have h2 := hval "Value" (by simp [valueKeys])
  have h3 := hval "nominalValue" (by simp [valueKeys])
  have h4 := hval "NominalValue" (by simp [valueKeys])
  have hany : xyzKeys.any (fun k => (dictGet fs k).isSome) = true := by
    obtain ⟨k, hk, hs⟩ := hxyz
    exact List.any_eq_true.mpr ⟨k, hk, hs⟩
  simp [goNum, valueKeys, List.findSome?, h1, h2, h3, h4, hany]

/-- `as_number` on such a vector-like mapping is absent. -/
theorem asNumber_vobj_xyz (fs : List (String × Value))
    (hval : ∀ k ∈ valueKeys, dictGet fs k = none)
    (hxyz : ∃ k ∈ xyzKeys, (dictGet fs k).isSome) :
    asNumber (.vobj fs) = none := by
  have h : vsize (.vobj fs) = fsize fs + 1 := by
    simp [vsize, Nat.add_comm]
  rw [asNumber, h]
  exact goNum_vobj_xyz (fsize fs) fs hval hxyz

/-! ### The recursion fuel of `as_number` is semantically inert

`asNumber` runs `goNum` with `vsize` fuel.  The lemmas below certify
that this choice is not observable: the recursion descends only into
strict sub-values, so any fuel of at least `vsize` gives the same
result — the embedding computes the unbounded Python recursion. -/

theorem one_le_vsize (v : Value) : 1 ≤ vsize v := by
  cases v <;> simp only [vsize] <;> omega

theorem one_le_lsize (xs : List Value) : 1 ≤ lsize xs := by
  cases xs <;> simp only [lsize] <;> omega

theorem one_le_fsize (fs : List (String × Value)) : 1 ≤ fsize fs := by
  cases fs with
  | nil => simp [fsize]
  | cons kv rest =>
    obtain ⟨a, b⟩ := kv
    simp only [fsize]
    omega

theorem dictGet_vsize_lt :
    ∀ (fs : List (String × Value)) (k : String) (v : Value),
      dictGet fs k = some v → vsize v < fsize fs := by
  intro fs
  induction fs with
  | nil => intro k v h; exact absurd h (by simp [dictGet])
  | cons kv rest ih =>
    obtain ⟨k1, v1⟩ := kv
    intro k v h
    by_cases he : k1 = k
    · rw [show dictGet ((k1, v1) :: rest) k = some v1 from by simp [dictGet, he]] at h
      obtain rfl : v1 = v := by simpa using h
      have := one_le_fsize rest
      simp only [fsize]
      omega
    · rw [show dictGet ((k1, v1) :: rest) k = dictGet rest k from by simp [dictGet, he]] at h
      have := ih k v h
      simp only [fsize]
      omega

theorem mem_vsize_lt :
    ∀ (fs : List (String × Value)) (kv : String × Value),
      kv ∈ fs → vsize kv.2 < fsize fs := by
  intro fs
  induction fs with
  | nil => intro kv h; simp at h
  | cons a rest ih =>
    obtain ⟨k1, v1⟩ := a
    intro kv h
    rcases List.mem_cons.mp h with rfl | h2
    · have := one_le_fsize rest
      simp only [fsize]
      omega
    · have := ih kv h2
      simp only [fsize]
      omega

theorem findSome?_congr {α β : Type} (l : List α) (f g : α → Option β)
    (h : ∀ a ∈ l, f a = g a) : l.findSome? f = l.findSome? g := by
  induction l with
  | nil => rfl
  | cons a rest ih =>
    rw [List.findSome?_cons, List.findSome?_cons, h a (List.mem_cons_self a rest)]
    cases g a with
    | none => exact ih fun x hx => h x (List.mem_cons_of_mem a hx)
    | some b => rfl

theorem lsize_cons_bounds (x : Value) (xs : List Value) :
    lsize (x :: xs) = 1 + vsize x + lsize xs := by
  simp [lsize]

theorem goNum_fuel_succ :
    ∀ (f : Nat) (v : Value), vsize v ≤ f → goNum (f + 1) v = goNum f v := by
  intro f
  induction f with
  | zero =>
    intro v hv
    have := one_le_vsize v
    omega
  | succ f ih =>
    intro v hv
    cases v with
    | vnull => rfl
    | vnum q => rfl
    | vstr s => rfl
    | vbool b => rfl
    | varr xs =>
      cases xs with
      | nil => rfl
      | cons x rest =>
        have hv2 : 2 + vsize x + lsize rest ≤ f + 1 := by
          have h := hv
          simp only [vsize, lsize] at h
          omega
        have hx : vsize x ≤ f := by
          have := one_le_lsize rest
          omega
        have hrest : vsize (.varr rest) ≤ f := by
          have := one_le_vsize x
          simp only [vsize]
          omega
        show (match goNum (f + 1) x with
              | some q => some q
              | none => goNum (f + 1) (.varr rest)) =
          (match goNum f x with
           | some q => some q
           | none => goNum f (.varr rest))
        rw [ih x hx, ih (.varr rest) hrest]
    | vobj fs =>
      have hfs : fsize fs ≤ f := by
        simp only [vsize] at hv
        omega
      have hkeys : ∀ k ∈ valueKeys,
          (dictGet fs k).bind (goNum (f + 1)) = (dictGet fs k).bind (goNum f) := by
        intro k _
        cases hd : dictGet fs k with
        | none => rfl
        | some w =>
          have hw : vsize w ≤ f := by
            have := dictGet_vsize_lt fs k w hd
            omega
          exact ih w hw
      simp only [goNum]
      rw [findSome?_congr valueKeys _ _ hkeys]
      cases valueKeys.findSome? (fun k => (dictGet fs k).bind (goNum f)) with
      | some q => rfl
      | none =>
        cases xyzKeys.any (fun k => (dictGet fs k).isSome) with
        | true => rfl
        | false =>
          cases hfind : fs.find? (fun kv => containsStr kv.1 "IfcLengthMeasure") with
          | some kv =>
            have hm : kv ∈ fs := List.mem_of_find?_eq_some hfind
            have hw : vsize kv.2 ≤ f := by
              have := mem_vsize_lt fs kv hm
              omega
            exact ih kv.2 hw
          | none =>
            cases fs with
            | nil => rfl
            | cons a rest =>
              cases rest with
              | cons b r2 => rfl
              | nil =>
                obtain ⟨k1, v1⟩ := a
                have hw : vsize v1 ≤ f := by
                  have h2 : vsize v1 < fsize [(k1, v1)] :=
                    mem_vsize_lt [(k1, v1)] (k1, v1) (by simp)
                  omega
                exact ih v1 hw

/-- Any fuel of at least `vsize v` computes `asNumber v`: the fuel
parameter has no observable effect. -/
theorem goNum_fuel_ge (f : Nat) (v : Value) (hf : vsize v ≤ f) :
    goNum f v = asNumber v := by
  unfold asNumber
  induction f with
  | zero =>
    have := one_le_vsize v
    omega
  | succ f ih =>
    rcases Nat.lt_or_ge (vsize v) (f + 1) with h | h
    · rw [goNum_fuel_succ f v (by omega), ih (by omega)]
    · have : f + 1 = vsize v := by omega
      rw [this]

/-! ## Helper lemmas about the assignment folds -/

/-- Soundness of the `nearest_space` fold: a produced identifier comes
from a space that passed both gates. -/
theorem nsFold_sound (zTol xyMax : ℚ) (p : ℚ × ℚ × ℚ) :
    ∀ (l : List (String × (ℚ × ℚ × ℚ))) (acc : Option String × ℚ) (g : String),
      (l.foldl (nsStep zTol xyMax p) acc).1 = some g →
      acc.1 = some g ∨
        ∃ s ∈ l, s.1 = g ∧ |p.2.2 - s.2.2.2| ≤ zTol ∧
          (0 < xyMax → (p.1 - s.2.1) ^ 2 + (p.2.1 - s.2.2.1) ^ 2 ≤ xyMax ^ 2) := by
  intro l
  induction l with
  | nil => intro acc g h; exact Or.inl h
  | cons s rest ih =>
    intro acc g h
    rcases ih (nsStep zTol xyMax p acc s) g h with h1 | ⟨w, hw, hrest⟩
    · unfold nsStep at h1
      by_cases hz : zTol < |p.2.2 - s.2.2.2|
      · rw [if_pos hz] at h1
        exact Or.inl h1
      · rw [if_neg hz] at h1
        by_cases hxy : 0 < xyMax ∧ xyMax ^ 2 < (p.1 - s.2.1) ^ 2 + (p.2.1 - s.2.2.1) ^ 2
        · rw [if_pos hxy] at h1
          exact Or.inl h1
        · rw [if_neg hxy] at h1
          by_cases hlt : (p.1 - s.2.1) ^ 2 + (p.2.1 - s.2.2.1) ^ 2 < acc.2
          · rw [if_pos hlt] at h1
            refine Or.inr ⟨s, List.mem_cons_self s rest, ?_, le_of_not_lt hz, ?_⟩
            · exact (Option.some.injEq _ _ ▸ h1.symm).symm ▸ rfl
            · intro hpos
              rcases not_and_or.mp hxy with hc | hc
              · exact absurd hpos hc
              · exact le_of_not_lt hc
          · rw [if_neg hlt] at h1
            exact Or.inl h1
    · exact Or.inr ⟨w, List.mem_cons_of_mem s hw, hrest⟩

/-- The nearest-center fold keeps a found zone found. -/
theorem ncFold_keeps_some (p : ℚ × ℚ × ℚ) :
    ∀ (l : List (String × AABB)) (acc : Option String × ℚ),
      acc.1.isSome → ((l.foldl (ncStep p) acc).1).isSome := by
  intro l
  induction l with
  | nil => intro acc h; exact h
  | cons z rest ih =>
    intro acc h
    refine ih (ncStep p acc z) ?_
    unfold ncStep
    by_cases hlt : dist2 (centerOf z.2) p < acc.2
    · rw [if_pos hlt]; rfl
    · rw [if_neg hlt]; exact h

/-- The nearest-center fold finds a zone as soon as one beats the
running best distance. -/
theorem ncFold_some (p : ℚ × ℚ × ℚ) :
    ∀ (l : List (String × AABB)) (acc : Option String × ℚ),
      (∃ z ∈ l, dist2 (centerOf z.2) p < acc.2) →
      ((l.foldl (ncStep p) acc).1).isSome := by
  intro l
  induction l with
  | nil => intro acc h; simp at h
  | cons z rest ih =>
    intro acc h
    by_cases hlt : dist2 (centerOf z.2) p < acc.2
    · refine ncFold_keeps_some p rest (ncStep p acc z) ?_
      unfold ncStep
      rw [if_pos hlt]
      rfl
    · obtain ⟨w, hw, hwlt⟩ := h
      rcases List.mem_cons.mp hw with rfl | hw2
      · exact absurd hwlt hlt
      · refine ih (ncStep p acc z) ⟨w, hw2, ?_⟩
        unfold ncStep
        rw [if_neg hlt]
        exact hwlt

/-- Soundness of the nearest-center fold: a produced identifier belongs
to the zone list. -/
theorem ncFold_mem (p : ℚ × ℚ × ℚ) :
    ∀ (l : List (String × AABB)) (acc : Option String × ℚ) (g : String),
      (l.foldl (ncStep p) acc).1 = some g →
      acc.1 = some g ∨ ∃ z ∈ l, z.1 = g := by
  intro l
  induction l with
  | nil => intro acc g h; exact Or.inl h
  | cons z rest ih =>
    intro acc g h
    rcases ih (ncStep p acc z) g h with h1 | ⟨w, hw, hwg⟩
    · unfold ncStep at h1
      by_cases hlt : dist2 (centerOf z.2) p < acc.2
      · rw [if_pos hlt] at h1
        refine Or.inr ⟨z, List.mem_cons_self z rest, ?_⟩
        exact (Option.some.injEq _ _).mp h1
      · rw [if_neg hlt] at h1
        exact Or.inl h1
    · exact Or.inr ⟨w, List.mem_cons_of_mem z hw, hwg⟩

/-- Keys of a Python dict are unique: with nodup keys, two entries
sharing a key are the same entry. -/
theorem eq_of_nodup_keys {α : Type} {l : List (String × α)}
    (hn : (l.map Prod.fst).Nodup) {x y : String × α}
    (hx : x ∈ l) (hy : y ∈ l) (he : x.1 = y.1) : x = y := by
  induction l with
  | nil => simp at hx
  | cons a rest ih =>
    rw [List.map_cons, List.nodup_cons] at hn
    rcases List.mem_cons.mp hx with rfl | hx2
    · rcases List.mem_cons.mp hy with rfl | hy2
      · rfl
      · exact absurd (he ▸ List.mem_map_of_mem Prod.fst hy2) hn.1
    · rcases List.mem_cons.mp hy with rfl | hy2
      · exact absurd (he ▸ List.mem_map_of_mem Prod.fst hx2) hn.1
      · exact ih hn.2 hx2 hy2

/-- The `ON MATCH` set list never clobbers an existing value outside the
refreshed `type` field. -/
theorem onMatchChain_keeps (p : String → Option PV) (nm ty src ps ats : String)
    (fl : Option PV) {k : String} {v : PV} (hv : p k = some v)
    (hk : k ≠ "type") :
    onMatchChain p nm ty src ps ats fl k = some v := by
  by_cases e1 : k = "name"
  · subst e1
    rw [onMatchChain_name, hv]
    rfl
  by_cases e3 : k = "source"
  · subst e3
    rw [onMatchChain_source, hv]
    rfl
  by_cases e4 : k = "psets_json"
  · subst e4
    rw [onMatchChain_psets, hv]
    rfl
  by_cases e5 : k = "attrs_json"
  · subst e5
    rw [onMatchChain_attrs, hv]
    rfl
  by_cases e6 : k = "flowDirection"
  · subst e6
    rw [onMatchChain_flow, hv]
    rfl
  rw [onMatchChain_other _ _ _ _ _ _ _ e1 hk e3 e4 e5 e6, hv]

/-- `z_from_object_placement` is unresolved exactly when the dereferenced
`ObjectPlacement` is not a mapping. -/
theorem zFromObjectPlacement_none_iff (tbl : List (String × Value))
    (fs : List (String × Value)) :
    zFromObjectPlacement tbl fs = none ↔
      isDict (derefOpt tbl (firstAttr fs ["ObjectPlacement", "objectPlacement"])) = false := by
  unfold zFromObjectPlacement isDict
  cases derefOpt tbl (firstAttr fs ["ObjectPlacement", "objectPlacement"]) with
  | none => simp
  | some v => cases v <;> simp

/-! ## The claims -/

/-- Claim C7: for a placement chain of three placements carrying Z
offsets 1.0, 2.0 and 3.0 (and rotation-like fields, which the walk never
reads), the resolved world Z coordinate is exactly 6: only translation
components are accumulated. -/
theorem C7_translation_summation : zFromLocalPlacement chainTable chain1 = 6 := by
  simp [zFromLocalPlacement, zLoop, chainTable, chain1, chain2, chain3, zAccum,
    seenStep, pyOrChain, idKeys, dictGet, truthy, pyStr, firstAttr, refTok,
    deref, derefOpt, coordsFromPoint, asNumber, goNum, vsize, lsize, fsize,
    valueKeys, xyzKeys, asFloatPrimitive, List.findSome?, List.reduceOption]
  norm_num

/-- Claim C3: world-position resolution terminates on every chain, cyclic
ones included.  (1) The walk is insensitive to any fuel of at least 64:
the `steps < 64` hop bound stops it regardless of identifiers.  (2) As
soon as a placement's identifier recurs in the visited set, the walk
stops at once and returns the accumulation gathered so far.  (3) On the
concrete cycle A → B → A (offsets 1 and 2) the resolution returns 3 —
each placement contributes exactly once. -/
theorem C3_resolution_terminates :
    (∀ (tbl : List (String × Value)) (f : Nat) (lp : Value), 64 ≤ f →
        zLoop tbl f lp [] 0 0 = zFromLocalPlacement tbl lp) ∧
    (∀ (tbl : List (String × Value)) (fuel : Nat) (fs : List (String × Value))
        (seen : List String) (z : ℚ) (steps : Nat) (ov : Value),
        pyOrChain fs idKeys = some ov → pyStr ov ∈ seen →
        zLoop tbl fuel (.vobj fs) seen z steps = z) ∧
    zFromLocalPlacement cycTable placeA = 3 := by
  refine ⟨fun tbl f lp hf => zLoop_fuel_ge tbl f lp hf,
    fun tbl fuel fs seen z steps ov hov hseen =>
      zLoop_visited tbl fuel fs seen z steps ov hov hseen, ?_⟩
  simp [zFromLocalPlacement, zLoop, cycTable, placeA, placeB, zAccum,
    seenStep, pyOrChain, idKeys, dictGet, truthy, pyStr, firstAttr, refTok,
    deref, derefOpt, coordsFromPoint, asNumber, goNum, vsize, lsize, fsize,
    valueKeys, xyzKeys, asFloatPrimitive, List.findSome?, List.reduceOption]
  norm_num

/-- Witness for C3: the fuel-insensitivity and the visited-set break,
each applied at a concrete input. -/
theorem C3_witness :
    zLoop cycTable 100 placeA [] 0 0 = zFromLocalPlacement cycTable placeA ∧
    zLoop cycTable 7 (.vobj [("id", .vstr "A")]) ["A"] 5 0 = 5 :=
  ⟨C3_resolution_terminates.1 cycTable 100 placeA (by decide),
   C3_resolution_terminates.2.1 cycTable 7 [("id", .vstr "A")] ["A"] 5 0
     (.vstr "A") rfl (by decide)⟩

/-- Claim C4, amended: resolution returns the unresolved marker exactly
when the record's dereferenced placement is absent or not a mapping (no
placement, or a broken reference); in particular a record with no
placement attribute at all is unresolved, and unresolved is distinct
from a resolved 0.  (Non-numeric coordinates do **not** produce the
unresolved marker — see `C4_counterexample`.) -/
theorem C4_unresolved_iff_no_placement :
    (∀ (tbl fs : List (String × Value)),
      zFromObjectPlacement tbl fs = none ↔
        isDict (derefOpt tbl (firstAttr fs ["ObjectPlacement", "objectPlacement"])) = false) ∧
    (∀ (tbl fs : List (String × Value)),
      firstAttr fs ["ObjectPlacement", "objectPlacement"] = none →
      zFromObjectPlacement tbl fs = none) ∧
    (zFromObjectPlacement [] [] = none ∧ (none : Option ℚ) ≠ some 0) := by
  refine ⟨zFromObjectPlacement_none_iff, ?_, rfl, by simp⟩
  intro tbl fs h
  unfold zFromObjectPlacement
  rw [h]
  rfl

/-- Witness for C4: a record with no placement attribute resolves to the
unresolved marker. -/
theorem C4_witness : zFromObjectPlacement [] [("a", Value.vnull)] = none :=
  C4_unresolved_iff_no_placement.2.1 [] [("a", Value.vnull)] rfl

/-- Counterexample to C4 as stated: this record's placement chain is
walkable but its coordinates are non-numeric strings; the claim says the
result must then be the unresolved marker, yet resolution skips the
unusable coordinates and returns 0 (a resolved value). -/
theorem C4_counterexample :
    zFromObjectPlacement [] nonNumericObj = some 0 ∧
    (some (0 : ℚ) : Option ℚ) ≠ none := ⟨by decide, by simp⟩

/-- Claim C8, amended: `deref` resolves a bare identifier string by
direct table lookup; a mapping whose reference field is one of the
casings `ref`/`$ref`/`Ref`/`REF` is looked up under that field's value —
a dangling target simply yields the lookup's absent result, never an
error; a mapping carrying none of those fields is returned unchanged as
an inline record; Python `None` stays absent.  (The claim's `id` casing
is **not** a reference field of `deref` — see `C8_counterexample`.) -/
theorem C8_deref_resolution :
    (∀ (tbl : List (String × Value)) (s : String),
      deref tbl (.vstr s) = dictGet tbl s) ∧
    (∀ (tbl fs : List (String × Value)) (r : Value),
      refTok fs = some r → deref tbl (.vobj fs) = dictGet tbl (pyStr r)) ∧
    (∀ (tbl fs : List (String × Value)),
      refTok fs = none → deref tbl (.vobj fs) = some (.vobj fs)) ∧
    (∀ tbl : List (String × Value), deref tbl .vnull = none) :=
  ⟨fun _ _ => rfl,
   fun tbl fs r h => by
    show (match refTok fs with
          | some r2 => dictGet tbl (pyStr r2)
          | none => some (.vobj fs)) = dictGet tbl (pyStr r)
    rw [h],
   fun tbl fs h => by
    show (match refTok fs with
          | some r2 => dictGet tbl (pyStr r2)
          | none => some (.vobj fs)) = some (.vobj fs)
    rw [h],
   fun _ => rfl⟩

/-- Witness for C8: a `ref`-carrying mapping is looked up (here a
dangling reference, yielding absent), and a mapping without a reference
field is inline. -/
theorem C8_witness :
    deref refTable (.vobj [("ref", .vstr "Y")]) = dictGet refTable (pyStr (.vstr "Y")) ∧
    deref refTable (.vobj [("marker", .vnum 2)]) = some (.vobj [("marker", .vnum 2)]) :=
  ⟨C8_deref_resolution.2.1 refTable [("ref", .vstr "Y")] (.vstr "Y") rfl,
   C8_deref_resolution.2.2.1 refTable [("marker", .vnum 2)] rfl⟩

/-- Counterexample to C8 as stated: a mapping carrying `id` (one of the
claim's reference-field casings) whose value names an existing table
record.  The claim says `deref` looks it up; the code treats the mapping
as an inline record and returns it unchanged — which differs from the
table's record for `X`. -/
theorem C8_counterexample :
    deref refTable (.vobj [("id", .vstr "X")]) = some (.vobj [("id", .vstr "X")]) ∧
    dictGet refTable "X" = some (.vobj [("marker", .vnum 1)]) ∧
    Value.vobj [("id", .vstr "X")] ≠ .vobj [("marker", .vnum 1)] :=
  ⟨rfl, rfl, by simp⟩

/-- Claim C9: `as_number` is total — on every input shape it yields
either a number or the absent marker (the embedding is a total function;
the Python never raises, every failure degrading to `None`) — and a
mapping that looks like an x/y/z vector record (an x/y/z-like key
present, no scalar wrapper key) yields absent rather than being
collapsed to a scalar; concretely so for `{x:1, y:2, z:3}`. -/
theorem C9_toNumber_total_and_vector_absent :
    (∀ v : Value, asNumber v = none ∨ ∃ q, asNumber v = some q) ∧
    (∀ fs : List (String × Value),
      (∀ k ∈ valueKeys, dictGet fs k = none) →
      (∃ k ∈ xyzKeys, (dictGet fs k).isSome) →
      asNumber (.vobj fs) = none) ∧
    asNumber (.vobj [("x", .vnum 1), ("y", .vnum 2), ("z", .vnum 3)]) = none := by
  refine ⟨?_, asNumber_vobj_xyz, by decide⟩
  intro v
  cases h : asNumber v with
  | none => exact Or.inl rfl
  | some q => exact Or.inr ⟨q, rfl⟩

/-- Witness for C9: the vector-refusal applied to the concrete mapping
`{x: 1}`. -/
theorem C9_witness : asNumber (.vobj [("x", .vnum 1)]) = none :=
  C9_toNumber_total_and_vector_absent.2.1 [("x", .vnum 1)]
    (fun k hk => by fin_cases hk <;> rfl)
    ⟨"x", by simp [xyzKeys], rfl⟩

/-- Claim C1, amended: upserting onto an existing node never overwrites
an existing (non-null) property value except for the refreshable fields,
which are the `type` classification **and** every key carried by the
upsert's flattened pset map (`SET n += $props_flat` overwrites
unconditionally): an existing value at a key other than `type` and
outside the props-flat keys survives; `type` is refreshed to the latest
value (when props-flat does not rebind it); a key bound in props-flat
ends at its last bound value. -/
theorem C1_fill_if_absent_refreshables (g : Graph)
    (id nm ty src ps ats : String) (fl : Option PV)
    (kvs : List (String × Option PV)) (ls : List String)
    (k : String) (v : PV)
    (hv : getProp g id k = some v) (hk1 : k ≠ "type")
    (hk2 : k ∉ kvs.map Prod.fst) :
    getProp (upsertNode g id nm ty src ps ats fl kvs ls) id k = some v ∧
    ("type" ∉ kvs.map Prod.fst →
      getProp (upsertNode g id nm ty src ps ats fl kvs ls) id "type" = some (.pstr ty)) ∧
    (∀ (k2 : String) (w : Option PV), lastVal kvs k2 = some w →
      getProp (upsertNode g id nm ty src ps ats fl kvs ls) id k2 = w) := by
  unfold getProp at hv
  cases hg : g.nodes id with
  | none =>
    rw [hg] at hv
    exact absurd hv (by simp)
  | some n =>
    rw [hg] at hv
    have hres : ∀ k2, getProp (upsertNode g id nm ty src ps ats fl kvs ls) id k2 =
        plusProps (onMatchChain n.props nm ty src ps ats fl) kvs k2 := by
      intro k2
      simp [upsertNode, getProp, hg]
    refine ⟨?_, ?_, ?_⟩
    · rw [hres, plusProps_not_mem hk2,
        onMatchChain_keeps n.props nm ty src ps ats fl hv hk1]
    · intro hty
      rw [hres, plusProps_not_mem hty, onMatchChain_type]
    · intro k2 w hw
      rw [hres, plusProps_eq_lastVal, hw]
      rfl

/-- Witness for C1: a second upsert of node `N` with a different `name`
parameter and a rebound `InstallYear`: the existing `name` survives,
`type` is refreshed, `InstallYear` takes the latest value. -/
theorem C1_witness :
    getProp (upsertNode gInstall2015 "N" "nm2" "T2" "src" "ps" "at" none
      [("InstallYear", some (.pnum 2016))] ["T2"]) "N" "name" = some (.pstr "nm") ∧
    ("type" ∉ ([("InstallYear", some (PV.pnum 2016))].map Prod.fst) →
      getProp (upsertNode gInstall2015 "N" "nm2" "T2" "src" "ps" "at" none
        [("InstallYear", some (.pnum 2016))] ["T2"]) "N" "type" = some (.pstr "T2")) ∧
    (∀ (k2 : String) (w : Option PV),
      lastVal [("InstallYear", some (.pnum 2016))] k2 = some w →
      getProp (upsertNode gInstall2015 "N" "nm2" "T2" "src" "ps" "at" none
        [("InstallYear", some (.pnum 2016))] ["T2"]) "N" k2 = w) :=
  C1_fill_if_absent_refreshables gInstall2015 "N" "nm2" "T2" "src" "ps" "at" none
    [("InstallYear", some (.pnum 2016))] ["T2"] "name" (.pstr "nm")
    (by decide) (by decide) (by decide)

/-- Counterexample to C1 as stated: `InstallYear` is not the raw type
classification, yet its existing non-null value 2015 is overwritten by
the second upsert's 2016 — the refreshable set is larger than the claim
allows. -/
theorem C1_counterexample :
    getProp gInstall2015 "N" "InstallYear" = some (.pnum 2015) ∧
    getProp gInstall2016 "N" "InstallYear" = some (.pnum 2016) ∧
    "InstallYear" ≠ "type" ∧ PV.pnum 2015 ≠ .pnum 2016 :=
  ⟨by decide, by decide, by decide, by decide⟩

/-- Claim C2: both upserts are individually idempotent — a second
identical `upsertNode` and a second identical `upsertEdge` each leave
the graph exactly as after the first — and upserting the edge
(A, B, CONTAINS) three times leaves exactly one such edge in the
relationship multiset, never parallel duplicates. -/
theorem C2_upserts_idempotent :
    (∀ (g : Graph) (id nm ty src ps ats : String) (fl : Option PV)
        (kvs : List (String × Option PV)) (ls : List String),
      upsertNode (upsertNode g id nm ty src ps ats fl kvs ls)
          id nm ty src ps ats fl kvs ls =
        upsertNode g id nm ty src ps ats fl kvs ls) ∧
    (∀ (g : Graph) (a b t : String),
      upsertEdge (upsertEdge g a b t) a b t = upsertEdge g a b t) ∧
    (upsertEdge (upsertEdge (upsertEdge twoNodeGraph "A" "B" "CONTAINS")
        "A" "B" "CONTAINS") "A" "B" "CONTAINS").edges.count
      ("A", "B", "CONTAINS") = 1 :=
  ⟨upsertNode_idem, upsertEdge_idem, by decide⟩

/-- Claim C5: the geometric assigner prefers containment over center
distance, and falls back to nearest-center only when no volume contains
the point.  (1) When some zone's (tolerance-inclusive) volume contains
the element's position and zone `b`'s volume does not, the first
containing zone in iteration order is selected — in particular never
`b`, however near `b`'s center.  (2) When no zone's volume contains the
point, the result is exactly the (truthiness-filtered) nearest-center
fallback. -/
theorem C5_containment_precedence (zones : List (String × AABB)) (p : ℚ × ℚ × ℚ) :
    ((∀ z ∈ zones, z.1 ≠ "") → (zones.map Prod.fst).Nodup →
      ∀ b ∈ zones, containsAABB b.2 p (1 / 10) 1 = false →
      (∃ a ∈ zones, containsAABB a.2 p (1 / 10) 1 = true) →
      ∃ z, zones.find? (fun q => containsAABB q.2 p (1 / 10) 1) = some z ∧
        assignGeom zones p = some z.1 ∧ containsAABB z.2 p (1 / 10) 1 = true ∧
        z.1 ≠ b.1) ∧
    ((∀ z ∈ zones, containsAABB z.2 p (1 / 10) 1 = false) →
      assignGeom zones p =
        match nearestCenter zones p with
        | some g => if g = "" then none else some g
        | none => none) := by
  constructor
  · intro hids hnodup b hb hnb hex
    obtain ⟨a, ha, hca⟩ := hex
    have hfind : (zones.find? (fun q => containsAABB q.2 p (1 / 10) 1)).isSome := by
      rw [List.find?_isSome]
      exact ⟨a, ha, hca⟩
    obtain ⟨z, hz⟩ := Option.isSome_iff_exists.mp hfind
    have hzc : containsAABB z.2 p (1 / 10) 1 = true := by
      have h := List.find?_some hz
      simpa using h
    have hzm : z ∈ zones := List.mem_of_find?_eq_some hz
    have hzne : z.1 ≠ "" := hids z hzm
    refine ⟨z, hz, ?_, hzc, ?_⟩
    · unfold assignGeom
      rw [hz]
      simp [hzne]
    · intro he
      have hzb := eq_of_nodup_keys hnodup hzm hb he
      rw [hzb, hnb] at hzc
      exact Bool.noConfusion hzc
  · intro hnone
    have hfind : zones.find? (fun q => containsAABB q.2 p (1 / 10) 1) = none :=
      List.find?_eq_none.mpr fun x hx => by rw [hnone x hx]; simp
    unfold assignGeom
    rw [hfind]
    rfl

/-- Witness for C5: the element sits inside zone `A`'s unit box; the
listed-first zone `B` does not contain it (and is selected by neither
tier); containment picks `A`. -/
theorem C5_witness :
    ∃ z, [("B", AABB.mk 10 10 10 11 11 11), ("A", unitBox)].find?
        (fun q => containsAABB q.2 ((1 : ℚ) / 2, 1 / 2, 1 / 2) (1 / 10) 1) = some z ∧
      assignGeom [("B", AABB.mk 10 10 10 11 11 11), ("A", unitBox)]
          ((1 : ℚ) / 2, 1 / 2, 1 / 2) = some z.1 ∧
      containsAABB z.2 ((1 : ℚ) / 2, 1 / 2, 1 / 2) (1 / 10) 1 = true ∧
      z.1 ≠ ("B", AABB.mk 10 10 10 11 11 11).1 :=
  (C5_containment_precedence [("B", AABB.mk 10 10 10 11 11 11), ("A", unitBox)]
      ((1 : ℚ) / 2, 1 / 2, 1 / 2)).1
    (by decide) (by decide)
    ("B", AABB.mk 10 10 10 11 11 11) (by simp)
    (by norm_num [containsAABB, unitBox])
    ⟨("A", unitBox), by simp, by norm_num [containsAABB, unitBox]⟩

/-- Claim C6: the nearest-space fallback excludes from consideration any
space whose vertical offset from the element exceeds the vertical gate
(and, when the lateral cap is active, any space beyond it): whatever
identifier it returns belongs to a space passing both gates.  With a
vertical gate of 1.0, an element 5.0 above the only candidate's point
stays unassigned instead of being force-matched. -/
theorem C6_gated_fallback :
    (∀ (spaces : List (String × (ℚ × ℚ × ℚ))) (zTol xyMax : ℚ)
        (p : ℚ × ℚ × ℚ) (g : String),
      nearestSpace spaces zTol xyMax p = some g →
      ∃ s ∈ spaces, s.1 = g ∧ |p.2.2 - s.2.2.2| ≤ zTol ∧
        (0 < xyMax → (p.1 - s.2.1) ^ 2 + (p.2.1 - s.2.2.1) ^ 2 ≤ xyMax ^ 2)) ∧
    nearestSpace [("Z1", ((0 : ℚ), (0 : ℚ), (0 : ℚ)))] 1 50 (0, 0, 5) = none := by
  constructor
  · intro spaces zTol xyMax p g h
    rcases nsFold_sound zTol xyMax p spaces (none, sentinel) g h with h1 | h2
    · exact absurd h1 (by simp)
    · exact h2
  · norm_num [nearestSpace, nsStep, sentinel]

/-- Witness for C6: the gate soundness applied at a concrete match —
the element at the space's own point, vertical gate 1, no lateral cap. -/
theorem C6_witness :
    ∃ s ∈ [("Z", ((0 : ℚ), (0 : ℚ), (0 : ℚ)))], s.1 = "Z" ∧
      |((0 : ℚ), (0 : ℚ), (0 : ℚ)).2.2 - s.2.2.2| ≤ 1 ∧
      (0 < (0 : ℚ) →
        (((0 : ℚ), (0 : ℚ), (0 : ℚ)).1 - s.2.1) ^ 2 +
          (((0 : ℚ), (0 : ℚ), (0 : ℚ)).2.1 - s.2.2.1) ^ 2 ≤ (0 : ℚ) ^ 2) :=
  C6_gated_fallback.1 [("Z", ((0 : ℚ), (0 : ℚ), (0 : ℚ)))] 1 0 (0, 0, 0) "Z"
    (by norm_num [nearestSpace, nsStep, sentinel])

/-- Claim C10, amended: in the containment-then-fallback variants the
fallback applies no vertical or lateral gate, so an element with a
resolved position is always assigned whenever some zone volume exists
**and** some zone center lies within the fold's `1e99` squared-distance
sentinel of the element (and zone identifiers are non-empty, Python
truthiness dropping an empty one).  Beyond the sentinel the fold never
installs a best zone — see `C10_counterexample`. -/
theorem C10_fallback_ungated (zones : List (String × AABB)) (p : ℚ × ℚ × ℚ)
    (hids : ∀ z ∈ zones, z.1 ≠ "")
    (hnear : ∃ z ∈ zones, dist2 (centerOf z.2) p < sentinel) :
    ∃ g, assignGeom zones p = some g := by
  cases hf : zones.find? (fun q => containsAABB q.2 p (1 / 10) 1) with
  | some z =>
    have hzne : z.1 ≠ "" := hids z (List.mem_of_find?_eq_some hf)
    refine ⟨z.1, ?_⟩
    unfold assignGeom
    rw [hf]
    simp [hzne]
  | none =>
    have hsome : (nearestCenter zones p).isSome :=
      ncFold_some p zones (none, sentinel) hnear
    obtain ⟨g, hg⟩ := Option.isSome_iff_exists.mp hsome
    have hgmem : ∃ z ∈ zones, z.1 = g := by
      rcases ncFold_mem p zones (none, sentinel) g hg with h1 | h2
      · exact absurd h1 (by simp)
      · exact h2
    obtain ⟨z, hz, hzg⟩ := hgmem
    refine ⟨g, ?_⟩
    unfold assignGeom
    rw [hf, hg]
    have : g ≠ "" := hzg ▸ hids z hz
    simp [this]

/-- Witness for C10: an element well outside the unit box but within the
sentinel is still assigned by the ungated fallback. -/
theorem C10_witness :
    ∃ g, assignGeom [("Z1", unitBox)] ((5 : ℚ), 0, 0) = some g :=
  C10_fallback_ungated [("Z1", unitBox)] ((5 : ℚ), 0, 0) (by decide)
    ⟨("Z1", unitBox), by simp, by norm_num [dist2, centerOf, sentinel, unitBox]⟩

/-- Counterexample to C10 as stated: one zone volume exists and the
element's position is resolved, yet the element is unassigned — its
squared distance to the only zone center (≈ 10¹⁰⁰) exceeds the `1e99`
sentinel that initializes the minimization, so the fold never accepts
the zone. -/
theorem C10_counterexample :
    assignGeom [("Z1", unitBox)] ((10 : ℚ) ^ 50, 0, 0) = none := by
  norm_num [assignGeom, nearestCenter, ncStep, containsAABB, centerOf, dist2,
    sentinel, unitBox]

end RIG
